import Mathlib

/-!
Verification of the auto-formatting / block-boundary repair engine of the
PaperSmith Markdown editor (`SmartEditor` in `PaperSmith.py`).

Lines of the text buffer are modelled as `List Char` (a Qt text block's text,
which never contains a newline), and the document as a `List (List Char)`.
Character offsets into the document count one separator character per line
boundary, exactly as Qt block positions do.

The editing-surface primitives used by the engine (cursor position, text
insertion at an offset, replacing a line) are modelled as plain list and
string operations with their documented semantics; all decision logic is
translated directly from the Python source.
-/

/-- Python `\s` / `str.strip` whitespace over ASCII: space, tab, newline,
carriage return, vertical tab, form feed. -/
def pyIsSpace (c : Char) : Bool :=
  c = ' ' || c = '\t' || c = '\n' || c = '\r' || c = '\x0b' || c = '\x0c'

/-- Python `str.lstrip()`. -/
def pyLstrip (l : List Char) : List Char := l.dropWhile pyIsSpace

/-- Python `str.rstrip()`. -/
def pyRstrip (l : List Char) : List Char := (l.reverse.dropWhile pyIsSpace).reverse

/-- Python `str.strip()`. -/
def pyStrip (l : List Char) : List Char := pyRstrip (pyLstrip l)

/-- The backtick character (spelled via its code point). -/
def backtick : Char := Char.ofNat 96

/-- `text.strip().startswith('˝˝˝')` (three backticks): the code-fence test of
`auto_fix_spacing`. -/
def isFence (text : List Char) : Bool :=
  match pyStrip text with
  | a :: b :: c :: _ => a = backtick && b = backtick && c = backtick
  | _ => false

/-- The block-type vocabulary of `identify_block_type`, plus the sentinel
values `'empty'` and `'code_fence'` used by the scan state.  Headings are
tagged `text` by the source, the same tag as plain text. -/
inductive BType where
  | empty
  | text
  | task
  | ul
  | ol
  | hr
  | table
  | code_fence
deriving DecidableEq, Repr

/-- Regex `^#{1,6}\s` on the lstripped line: one to six hash marks followed by
one whitespace character.  (With seven or more leading hashes the greedy
quantifier cannot succeed, since `\s` never matches `#`.) -/
def matchHeading (clean : List Char) : Bool :=
  let hs := clean.takeWhile (fun c => c = '#')
  decide (1 ≤ hs.length) && decide (hs.length ≤ 6) &&
    (match clean.drop hs.length with
     | c :: _ => pyIsSpace c
     | [] => false)

/-- Regex `^[-*]\s\[[xX ]\]` on the lstripped line. -/
def matchTaskCls (clean : List Char) : Bool :=
  match clean with
  | m :: s :: '[' :: x :: ']' :: _ =>
      (m = '-' || m = '*') && pyIsSpace s && (x = 'x' || x = 'X' || x = ' ')
  | _ => false

/-- Regex `^[-*+]\s` on the lstripped line. -/
def matchUlCls (clean : List Char) : Bool :=
  match clean with
  | m :: s :: _ => (m = '-' || m = '*' || m = '+') && pyIsSpace s
  | _ => false

/-- Regex `^\d+\.` on the lstripped line: one or more digits then a dot. -/
def matchOlCls (clean : List Char) : Bool :=
  let ds := clean.takeWhile Char.isDigit
  !ds.isEmpty &&
    (match clean.drop ds.length with
     | '.' :: _ => true
     | _ => false)

/-- Regex `^[-*_]{3,}$` on the stripped line: at least three characters, all
drawn from `-`, `*`, `_`. -/
def matchHr (stripped : List Char) : Bool :=
  decide (3 ≤ stripped.length) && stripped.all (fun c => c = '-' || c = '*' || c = '_')

/-- `stripped_text.startswith('|')`. -/
def matchTable (stripped : List Char) : Bool :=
  match stripped with
  | c :: _ => c = '|'
  | [] => false

/-- `SmartEditor.identify_block_type` (PaperSmith.py lines 416-426),
translated rule for rule in the source's precedence order.  Note that the
heading rule returns the tag `text`, the same tag as the final plain-text
fallthrough. -/
def identify_block_type (text : List Char) : BType :=
  let clean := text.dropWhile pyIsSpace
  let stripped := pyStrip clean
  if stripped.isEmpty then .empty
  else if matchHeading clean then .text
  else if matchTaskCls clean then .task
  else if matchUlCls clean then .ul
  else if matchOlCls clean then .ol
  else if matchHr stripped then .hr
  else if matchTable stripped then .table
  else .text

/-- `SmartEditor.get_indent`: length of the leading-whitespace run. -/
def get_indent (text : List Char) : Nat := (text.takeWhile pyIsSpace).length

/-- The `list_types` set of `check_conflict`. -/
def isListType (t : BType) : Bool := t = .ul || t = .ol || t = .task

/-- `SmartEditor.check_conflict` (PaperSmith.py lines 432-450).  Each `if` of
the source that can fall through is translated as an `if` whose condition is
the conjunction the source tests, in the source's order. -/
def check_conflict (t1 t2 : BType) (i1 i2 : Nat) : Bool :=
  if t1 = .empty then false
  else if t2 = .empty then false
  else if t1 = .text ∧ isListType t2 then true
  else if isListType t1 ∧ t2 = .text ∧ i2 ≤ i1 then true
  else if isListType t1 ∧ isListType t2 ∧ t1 ≠ t2 ∧ i2 ≤ i1 then true
  else if t1 ≠ .table ∧ t2 = .table then true
  else if t1 = .table ∧ t2 ≠ .table then true
  else false

/-- The mid-scan state of `auto_fix_spacing`: last remembered classification
(`prev_type`, `prev_indent`) and the code-fence flag `in_code_block`. -/
structure ScanState where
  prevType : BType
  prevIndent : Nat
  inCode : Bool
deriving DecidableEq, Repr

/-- What the scan loop of `auto_fix_spacing` does with one line: toggle the
fence flag, skip a fenced line, or classify the line (recording whether
`check_conflict` fired). -/
inductive LineEvent where
  | fence
  | skipped
  | classified (t : BType) (conflict : Bool)
deriving DecidableEq, Repr

/-- Whether a line event records an insertion position. -/
def eventFlag : LineEvent → Bool
  | .classified _ c => c
  | _ => false

/-- One iteration of the scan loop of `auto_fix_spacing`
(PaperSmith.py lines 369-396): the event for the line together with the
updated state. -/
def stepEvent (s : ScanState) (l : List Char) : LineEvent × ScanState :=
  if isFence l then (.fence, ⟨.code_fence, 0, !s.inCode⟩)
  else if s.inCode then (.skipped, s)
  else
    let t := identify_block_type l
    let ind := get_indent l
    let c := check_conflict s.prevType t s.prevIndent ind
    (.classified t c, if t = .empty then ⟨.empty, 0, s.inCode⟩ else ⟨t, ind, s.inCode⟩)

/-- The per-line events of a whole scan. -/
def scanTrace (s : ScanState) : List (List Char) → List LineEvent
  | [] => []
  | l :: ls => (stepEvent s l).1 :: scanTrace (stepEvent s l).2 ls

/-- The `insert_positions` list collected by the scan, as character offsets;
`base` is the position of the first line of the remaining document
(`block.position()` in the source). -/
def scanPositions (s : ScanState) (base : Nat) : List (List Char) → List Nat
  | [] => []
  | l :: ls =>
      (if eventFlag (stepEvent s l).1 then [base] else []) ++
        scanPositions (stepEvent s l).2 (base + (l.length + 1)) ls

/-- The initial scan state: `prev_type = 'empty'`, `prev_indent = 0`,
`in_code_block = False`. -/
def initState : ScanState := ⟨.empty, 0, false⟩

/-- The full recorded repair plan of one `auto_fix_spacing` pass. -/
def autoFixPositions (lines : List (List Char)) : List Nat :=
  scanPositions initState 0 lines

/-- `cursor.setPosition(pos); cursor.insertText('\n')` on a document given as
its list of lines: split the line containing offset `pos` at that offset. -/
def insertNL : List (List Char) → Nat → List (List Char)
  | [], _ => []
  | l :: ls, pos =>
      if pos ≤ l.length then l.take pos :: l.drop pos :: ls
      else l :: insertNL ls (pos - (l.length + 1))

/-- The caret update of the application loop: `if pos <= old_pos: old_pos += 1`. -/
def caretStep (oldPos pos : Nat) : Nat := if pos ≤ oldPos then oldPos + 1 else oldPos

/-- `SmartEditor.auto_fix_spacing` (PaperSmith.py lines 358-414) as a function
on the document and caret offset: scan the buffer, then apply every recorded
insertion in descending offset order (`for pos in reversed(insert_positions)`),
shifting the caret per `caretStep`.  When no position is recorded the source
performs no edit, which coincides with folding over the empty list. -/
def auto_fix_spacing (lines : List (List Char)) (caret : Nat) :
    List (List Char) × Nat :=
  let ps := autoFixPositions lines
  (ps.reverse.foldl insertNL lines, ps.reverse.foldl caretStep caret)

/-- Interleaved application of per-line insertion flags: a flagged line gets an
empty line inserted in front of it (helper for relating the offset-driven
application loop to the line structure). -/
def applyFlags : List Bool → List (List Char) → List (List Char)
  | f :: fs, l :: ls => (if f then [[], l] else [l]) ++ applyFlags fs ls
  | _, ls => ls

/-- The scan-and-apply pass fused into one recursion (helper). -/
def fixAux (s : ScanState) : List (List Char) → List (List Char)
  | [] => []
  | l :: ls =>
      (if eventFlag (stepEvent s l).1 then [[], l] else [l]) ++
        fixAux (stepEvent s l).2 ls

/-- Regex `^(\s*)([-*]) \[[xX ]\]\s+` of `keyPressEvent`: optional indent,
bullet, one literal space, a checkbox, then at least one whitespace character.
Returns the captured `(indent, bullet)` groups on a match. -/
def taskMatch (cs : List Char) : Option (List Char × Char) :=
  match cs.dropWhile pyIsSpace with
  | m :: ' ' :: '[' :: x :: ']' :: s2 :: _ =>
      if (m = '-' || m = '*') && (x = 'x' || x = 'X' || x = ' ') && pyIsSpace s2 then
        some (cs.takeWhile pyIsSpace, m)
      else none
  | _ => none

/-- Regex `^(\s*)([-*+])\s+` of `keyPressEvent`. -/
def ulMatch (cs : List Char) : Option (List Char × Char) :=
  match cs.dropWhile pyIsSpace with
  | m :: s :: _ =>
      if (m = '-' || m = '*' || m = '+') && pyIsSpace s then
        some (cs.takeWhile pyIsSpace, m)
      else none
  | _ => none

/-- Regex `^(\s*)(\d+)\.\s+` of `keyPressEvent`; returns `(indent, digits)`. -/
def olMatch (cs : List Char) : Option (List Char × List Char) :=
  let rest := cs.dropWhile pyIsSpace
  let ds := rest.takeWhile Char.isDigit
  if ds.isEmpty then none
  else
    match rest.drop ds.length with
    | '.' :: s :: _ => if pyIsSpace s then some (cs.takeWhile pyIsSpace, ds) else none
    | _ => none

/-- Python `int` on a run of ASCII digits. -/
def digitsToNat (ds : List Char) : Nat :=
  ds.foldl (fun a c => 10 * a + (c.toNat - '0'.toNat)) 0

/-- The bare-marker test for a task line:
`len(text.strip()) == len(task_match.group(0).strip())`.  For any match of the
task regex, `group(0).strip()` is the bullet, one space, and the three-character
checkbox — always five characters. -/
def bareTask (text : List Char) : Bool :=
  (taskMatch text).isSome && (pyStrip text).length == 5

/-- The bare-marker test for an unordered line:
`text.strip() == ul_match.group(2)`. -/
def bareUl (text : List Char) : Bool :=
  match ulMatch text with
  | some (_, m) => pyStrip text == [m]
  | none => false

/-- The bare-marker test for an ordered line:
`text.strip() == f"{ol_match.group(2)}."`. -/
def bareOl (text : List Char) : Bool :=
  match olMatch text with
  | some (_, ds) => pyStrip text == ds ++ ['.']
  | none => false

/-- `SmartEditor.remove_current_line_marker` (PaperSmith.py lines 520-526).
`BlockUnderCursor` selects the block *together with its preceding block
separator* when one exists, so for a non-first line `removeSelectedText`
followed by `insertBlock` nets out to emptying the line, caret at its start.
The first block has no preceding separator: the selection is its content
alone, `removeSelectedText` empties line 0, and the unconditional
`insertBlock` then splits it — leaving two empty lines with the caret at the
start of the second. -/
def remove_current_line_marker (lines : List (List Char)) (row : Nat) :
    List (List Char) × Nat × Nat :=
  if row = 0 then ([] :: lines.set 0 [], 1, 0)
  else (lines.set row [], row, 0)

/-- Insert an element in front of index `i` of a list. -/
def insertAt (ls : List (List Char)) (i : Nat) (x : List Char) : List (List Char) :=
  ls.take i ++ x :: ls.drop i

/-- `SmartEditor.insert_new_line_with_prefix` (PaperSmith.py lines 528-535):
insert a line break at the caret followed by the continuation marker `pfx`;
the caret ends up on the new line just after the marker. -/
def insert_new_line_with_marker (lines : List (List Char)) (row col : Nat)
    (pfx : List Char) : List (List Char) × Nat × Nat :=
  let text := lines.getD row []
  (insertAt (lines.set row (text.take col)) (row + 1) (pfx ++ text.drop col),
   row + 1, pfx.length)

/-- The line-break branch of `SmartEditor.keyPressEvent`
(PaperSmith.py lines 452-486) on a document with the caret at `(row, col)`:
`none` means the event is not intercepted (deferred to the host editor's
default line-break handling).  The three bare-marker early returns all perform
the same `remove_current_line_marker` call, so they are merged into one
disjunction; the continuation branches follow in the source's
task / unordered / ordered priority order. -/
def keyPressEvent (lines : List (List Char)) (row col : Nat) :
    Option (List (List Char) × Nat × Nat) :=
  let text := lines.getD row []
  if bareTask text || bareUl text || bareOl text then
    some (remove_current_line_marker lines row)
  else
    match taskMatch text with
    | some (ws, m) =>
        some (insert_new_line_with_marker lines row col
          (ws ++ m :: ' ' :: '[' :: ' ' :: ']' :: ' ' :: []))
    | none =>
        match ulMatch text with
        | some (ws, m) =>
            some (insert_new_line_with_marker lines row col (ws ++ m :: ' ' :: []))
        | none =>
            match olMatch text with
            | some (ws, ds) =>
                some (insert_new_line_with_marker lines row col
                  (ws ++ (toString (digitsToNat ds + 1)).data ++ '.' :: ' ' :: []))
            | none => none

def isCheckChar (c : Char) : Bool := c = ' ' || c = 'x' || c = 'X'

/-- Regex `^(\s*[-*]\s*)\[([ xX]*)\]` of `check_task_toggle`: group 1 is
indent, bullet, optional whitespace; group 2 is the checkbox content, a
possibly empty run of space / `x` / `X`.  Each run is maximal and the literal
that must follow it can never belong to it, so the backtracking regex match is
deterministic.  Returns `(len(group(1)), group(2), match.end())`. -/
def taskToggleMatch (cs : List Char) : Option (Nat × List Char × Nat) :=
  match cs.dropWhile pyIsSpace with
  | b :: rest1 =>
      if b = '-' || b = '*' then
        match rest1.dropWhile pyIsSpace with
        | '[' :: rest2 =>
            match rest2.dropWhile isCheckChar with
            | ']' :: _ =>
                some ((cs.takeWhile pyIsSpace).length + 1
                        + (rest1.takeWhile pyIsSpace).length,
                      rest2.takeWhile isCheckChar,
                      (cs.takeWhile pyIsSpace).length + 1
                        + (rest1.takeWhile pyIsSpace).length + 1
                        + (rest2.takeWhile isCheckChar).length + 1)
            | _ => none
        | _ => none
      else none
  | [] => none

/-- `SmartEditor.check_task_toggle` (PaperSmith.py lines 488-518) on a document
with the caret at `(row, col)` and no active selection: when the caret falls
strictly after the opening bracket and at or before the closing bracket, the
bracketed span is replaced (`[x]` when the content is blank, `[ ]` otherwise)
and the caret moves to the match's end, clamped to the end of the line;
otherwise nothing changes.  Returns the updated lines and caret column. -/
def check_task_toggle (lines : List (List Char)) (row col : Nat) :
    List (List Char) × Nat :=
  let text := lines.getD row []
  match taskToggleMatch text with
  | none => (lines, col)
  | some (bs, content, mEnd) =>
      if bs < col ∧ col ≤ mEnd - 1 then
        let newSpan : List Char :=
          if (pyStrip content).isEmpty then '[' :: 'x' :: ']' :: []
          else '[' :: ' ' :: ']' :: []
        let newText := text.take bs ++ newSpan ++ text.drop mEnd
        (lines.set row newText,
         if mEnd ≤ newText.length then mEnd else newText.length)
      else (lines, col)

/-- Character offset of the start of line `i` (Qt `block.position()`): each
earlier line contributes its length plus one separator character. -/
def offsetOf (ls : List (List Char)) (i : Nat) : Nat :=
  ((ls.take i).map (fun l => l.length + 1)).sum

/-- The scan state of `auto_fix_spacing` after processing a prefix of the
document. -/
def stateAt (s : ScanState) (ls : List (List Char)) : ScanState :=
  ls.foldl (fun st l => (stepEvent st l).2) s

/-- The document text as one character sequence with `'\n'` separators. -/
def charJoin : List (List Char) → List Char
  | [] => []
  | [l] => l
  | l :: l2 :: ls => l ++ '\n' :: charJoin (l2 :: ls)

theorem scanPositions_le (ls : List (List Char)) :
    ∀ (s : ScanState) (base : Nat), ∀ p ∈ scanPositions s base ls, base ≤ p := by
  induction ls with
  | nil => intro s base p hp; simp [scanPositions] at hp
  | cons l ls ih =>
      intro s base p hp
      simp only [scanPositions, List.mem_append] at hp
      rcases hp with hp | hp
      · split at hp
        · simp at hp; omega
        · simp at hp
      · have := ih _ _ p hp
        omega

theorem foldl_insertNL_cons (qs : List Nat) :
    ∀ (l : List Char) (ls : List (List Char)) (base : Nat),
      (∀ q ∈ qs, base + (l.length + 1) ≤ q) →
      qs.foldl (fun acc q => insertNL acc (q - base)) (l :: ls)
        = l :: qs.foldl (fun acc q => insertNL acc (q - (base + (l.length + 1)))) ls := by
  induction qs with
  | nil => intro l ls base _; rfl
  | cons q qs ih =>
      intro l ls base hq
      have h1 : base + (l.length + 1) ≤ q := hq q (by simp)
      have h2 : ¬ (q - base ≤ l.length) := by omega
      simp only [List.foldl_cons]
      rw [show insertNL (l :: ls) (q - base)
            = l :: insertNL ls (q - base - (l.length + 1)) from by
        simp [insertNL, h2]]
      rw [show q - base - (l.length + 1) = q - (base + (l.length + 1)) from by omega]
      exact ih l _ base (fun x hx => hq x (by simp [hx]))

theorem applyRev_eq_applyFlags (ls : List (List Char)) :
    ∀ (s : ScanState) (base : Nat),
      (scanPositions s base ls).reverse.foldl (fun acc q => insertNL acc (q - base)) ls
        = applyFlags ((scanTrace s ls).map eventFlag) ls := by
  induction ls with
  | nil => intro s base; rfl
  | cons l ls ih =>
      intro s base
      have hmem : ∀ q ∈ (scanPositions (stepEvent s l).2 (base + (l.length + 1)) ls).reverse,
          base + (l.length + 1) ≤ q := by
        intro q hq
        exact scanPositions_le ls _ _ q (List.mem_reverse.mp hq)
      have key := foldl_insertNL_cons
        ((scanPositions (stepEvent s l).2 (base + (l.length + 1)) ls).reverse) l ls base hmem
      have hih := ih (stepEvent s l).2 (base + (l.length + 1))
      have hunf : scanPositions s base (l :: ls)
          = (if eventFlag (stepEvent s l).1 then [base] else [])
            ++ scanPositions (stepEvent s l).2 (base + (l.length + 1)) ls := rfl
      have htr : (scanTrace s (l :: ls)).map eventFlag
          = eventFlag (stepEvent s l).1 :: (scanTrace (stepEvent s l).2 ls).map eventFlag := rfl
      have happ : applyFlags
            (eventFlag (stepEvent s l).1 :: (scanTrace (stepEvent s l).2 ls).map eventFlag)
            (l :: ls)
          = (if eventFlag (stepEvent s l).1 then [[], l] else [l])
            ++ applyFlags ((scanTrace (stepEvent s l).2 ls).map eventFlag) ls := rfl
      rcases Bool.eq_false_or_eq_true (eventFlag (stepEvent s l).1) with hf | hf
      · rw [hunf, htr, happ, if_pos hf, if_pos hf]
        rw [List.reverse_append, List.foldl_append, key, hih]
        show insertNL _ (base - base) = _
        rw [Nat.sub_self]
        simp [insertNL]
      · rw [hunf, htr, happ, if_neg (by rw [hf]; exact Bool.false_ne_true),
          if_neg (by rw [hf]; exact Bool.false_ne_true)]
        rw [List.nil_append, key, hih]
        rfl

theorem applyFlags_scanTrace_eq_fixAux (ls : List (List Char)) :
    ∀ s : ScanState, applyFlags ((scanTrace s ls).map eventFlag) ls = fixAux s ls := by
  induction ls with
  | nil => intro s; rfl
  | cons l ls ih =>
      intro s
      simp only [scanTrace, List.map_cons, applyFlags, fixAux, ih]

theorem auto_fix_fst (lines : List (List Char)) (caret : Nat) :
    (auto_fix_spacing lines caret).1
      = applyFlags ((scanTrace initState lines).map eventFlag) lines := by
  have he : (fun (acc : List (List Char)) (q : Nat) => insertNL acc (q - 0)) = insertNL := by
    funext acc q; rw [Nat.sub_zero]
  show (autoFixPositions lines).reverse.foldl insertNL lines = _
  rw [← he]
  exact applyRev_eq_applyFlags lines initState 0

theorem check_conflict_empty_left (t : BType) (i1 i2 : Nat) :
    check_conflict .empty t i1 i2 = false := by
  simp [check_conflict]

theorem check_conflict_empty_right (t : BType) (i1 i2 : Nat) :
    check_conflict t .empty i1 i2 = false := by
  by_cases h : t = .empty <;> simp [check_conflict, h]

theorem eventFlag_true_facts (s : ScanState) (l : List Char)
    (h : eventFlag (stepEvent s l).1 = true) :
    isFence l = false ∧ s.inCode = false := by
  by_cases h1 : isFence l
  · simp [stepEvent, h1, eventFlag] at h
  · by_cases h2 : s.inCode
    · simp [stepEvent, h1, h2, eventFlag] at h
    · exact ⟨by simp [h1], by simp [h2]⟩

theorem stepEvent_nil (s : ScanState) (h : s.inCode = false) :
    stepEvent s [] = (.classified .empty false, ⟨.empty, 0, false⟩) := by
  obtain ⟨pt, pi, ic⟩ := s
  simp only at h
  subst h
  simp [stepEvent, isFence, pyStrip, pyLstrip, pyRstrip, identify_block_type, get_indent,
    check_conflict_empty_right]

theorem stepEvent_from_emptyState (l : List Char) (s : ScanState)
    (hs : s.inCode = false) (hf : isFence l = false) :
    stepEvent (⟨.empty, 0, false⟩ : ScanState) l
      = (.classified (identify_block_type l) false, (stepEvent s l).2) := by
  obtain ⟨pt, pi, ic⟩ := s
  simp only at hs
  subst hs
  simp only [stepEvent, hf, Bool.false_eq_true, if_false, if_neg, check_conflict_empty_left]

theorem scanPositions_cons (s : ScanState) (base : Nat) (l : List Char)
    (ls : List (List Char)) :
    scanPositions s base (l :: ls)
      = (if eventFlag (stepEvent s l).1 then [base] else [])
        ++ scanPositions (stepEvent s l).2 (base + (l.length + 1)) ls := rfl

theorem scanPositions_fixAux (ls : List (List Char)) :
    ∀ (s : ScanState) (base : Nat), scanPositions s base (fixAux s ls) = [] := by
  induction ls with
  | nil => intro s base; rfl
  | cons l ls ih =>
      intro s base
      rcases Bool.eq_false_or_eq_true (eventFlag (stepEvent s l).1) with hf | hf
      case inr =>
        have hnot : ¬ (eventFlag (stepEvent s l).1 = true) := by
          rw [hf]; exact Bool.false_ne_true
        have hbody : fixAux s (l :: ls) = l :: fixAux (stepEvent s l).2 ls := by
          show (if eventFlag (stepEvent s l).1 then [[], l] else [l])
              ++ fixAux (stepEvent s l).2 ls = _
          rw [if_neg hnot]; rfl
        rw [hbody, scanPositions_cons, if_neg hnot, List.nil_append]
        exact ih _ _
      case inl =>
        obtain ⟨hfen, hic⟩ := eventFlag_true_facts s l hf
        have hbody : fixAux s (l :: ls) = [] :: l :: fixAux (stepEvent s l).2 ls := by
          show (if eventFlag (stepEvent s l).1 then [[], l] else [l])
              ++ fixAux (stepEvent s l).2 ls = _
          rw [if_pos hf]; rfl
        have hstepnil := stepEvent_nil s hic
        have hstepl := stepEvent_from_emptyState l s hic hfen
        rw [hbody, scanPositions_cons, hstepnil]
        rw [show eventFlag ((LineEvent.classified .empty false,
              (⟨.empty, 0, false⟩ : ScanState)) : LineEvent × ScanState).1 = false from rfl]
        rw [if_neg Bool.false_ne_true, List.nil_append]
        rw [scanPositions_cons, hstepl]
        rw [show eventFlag ((LineEvent.classified (identify_block_type l) false,
              (stepEvent s l).2) : LineEvent × ScanState).1 = false from rfl]
        rw [if_neg Bool.false_ne_true, List.nil_append]
        exact ih _ _

theorem scanPositions_pairwise (ls : List (List Char)) :
    ∀ (s : ScanState) (base : Nat), List.Pairwise (· < ·) (scanPositions s base ls) := by
  induction ls with
  | nil => intro s base; exact List.Pairwise.nil
  | cons l ls ih =>
      intro s base
      rw [scanPositions_cons]
      rcases Bool.eq_false_or_eq_true (eventFlag (stepEvent s l).1) with hf | hf
      · rw [if_pos hf, List.singleton_append]
        refine List.Pairwise.cons ?_ (ih _ _)
        intro q hq
        have := scanPositions_le ls _ _ q hq
        omega
      · rw [if_neg (by rw [hf]; exact Bool.false_ne_true), List.nil_append]
        exact ih _ _

theorem foldl_caretStep (qs : List Nat) :
    ∀ o : Nat, List.Pairwise (fun a b => b ≤ a) qs →
      qs.foldl caretStep o = o + (qs.filter (fun q => decide (q ≤ o))).length := by
  induction qs with
  | nil => intro o _; simp
  | cons q qs ih =>
      intro o hp
      have hrest : List.Pairwise (fun a b => b ≤ a) qs := hp.of_cons
      have hall : ∀ x ∈ qs, x ≤ q := fun x hx => List.rel_of_pairwise_cons hp hx
      by_cases hq : q ≤ o
      · have h2 : qs.filter (fun x => decide (x ≤ o + 1)) = qs :=
          List.filter_eq_self.mpr (fun x hx => by
            have := hall x hx; simp; omega)
        have h3 : qs.filter (fun x => decide (x ≤ o)) = qs :=
          List.filter_eq_self.mpr (fun x hx => by
            have := hall x hx; simp; omega)
        rw [List.foldl_cons, show caretStep o q = o + 1 from if_pos hq, ih (o + 1) hrest,
          h2, List.filter_cons_of_pos (by simp; omega), h3]
        simp [List.length_cons]
        omega
      · have h3 := ih o hrest
        rw [List.foldl_cons, show caretStep o q = o from if_neg hq, h3,
          List.filter_cons_of_neg (by simp; omega)]

/-- C1: running `auto_fix_spacing` a second time immediately after a first run
computes an empty list of insertion positions, so the buffer (and the caret)
after the second run equal those after the first run. -/
theorem auto_fix_spacing_idempotent (lines : List (List Char)) (caret : Nat) :
    autoFixPositions (auto_fix_spacing lines caret).1 = [] ∧
    auto_fix_spacing (auto_fix_spacing lines caret).1 (auto_fix_spacing lines caret).2
      = auto_fix_spacing lines caret := by
  have h1 : (auto_fix_spacing lines caret).1 = fixAux initState lines := by
    rw [auto_fix_fst, applyFlags_scanTrace_eq_fixAux]
  have h2 : autoFixPositions (auto_fix_spacing lines caret).1 = [] := by
    rw [h1]
    exact scanPositions_fixAux lines initState 0
  refine ⟨h2, ?_⟩
  show ((autoFixPositions (auto_fix_spacing lines caret).1).reverse.foldl insertNL _,
         (autoFixPositions (auto_fix_spacing lines caret).1).reverse.foldl caretStep _)
      = auto_fix_spacing lines caret
  rw [h2]
  rfl

/-- C2: the recorded insertion offsets are strictly ascending, hence the
application loop (`for pos in reversed(insert_positions)`) visits them in
strictly descending order, and the final caret offset equals the original
offset plus one for each recorded insertion position at or before the original
caret offset. -/
theorem auto_fix_spacing_caret (lines : List (List Char)) (caret : Nat) :
    List.Pairwise (fun a b => b < a) (autoFixPositions lines).reverse ∧
    (auto_fix_spacing lines caret).2
      = caret + ((autoFixPositions lines).filter (fun p => decide (p ≤ caret))).length := by
  have hasc : List.Pairwise (· < ·) (autoFixPositions lines) :=
    scanPositions_pairwise lines initState 0
  have hdesc : List.Pairwise (fun a b => b < a) (autoFixPositions lines).reverse :=
    (List.pairwise_reverse).mpr hasc
  refine ⟨hdesc, ?_⟩
  have hle : List.Pairwise (fun a b => b ≤ a) (autoFixPositions lines).reverse :=
    hdesc.imp (fun h => Nat.le_of_lt h)
  show (autoFixPositions lines).reverse.foldl caretStep caret = _
  rw [foldl_caretStep _ caret hle]
  congr 1
  rw [← List.length_reverse ((autoFixPositions lines).filter _)]
  congr 1
  exact List.filter_reverse _ _

theorem dropWhile_append_all (p : Char → Bool) (t l : List Char)
    (h : ∀ c ∈ t, p c = true) : (t ++ l).dropWhile p = l.dropWhile p := by
  induction t with
  | nil => rfl
  | cons c t ih =>
      rw [List.cons_append, List.dropWhile_cons, if_pos (h c (by simp))]
      exact ih (fun x hx => h x (by simp [hx]))

theorem takeWhile_append_stop (p : Char → Bool) (ws : List Char) (c : Char) (r : List Char)
    (hws : ∀ a ∈ ws, p a = true) (hc : p c = false) :
    (ws ++ c :: r).takeWhile p = ws := by
  induction ws with
  | nil => rw [List.nil_append, List.takeWhile_cons, hc]; rfl
  | cons a ws ih =>
      rw [List.cons_append, List.takeWhile_cons, if_pos (hws a (by simp))]
      rw [ih (fun x hx => hws x (by simp [hx]))]

theorem dropWhile_append_stop (p : Char → Bool) (ws : List Char) (c : Char) (r : List Char)
    (hws : ∀ a ∈ ws, p a = true) (hc : p c = false) :
    (ws ++ c :: r).dropWhile p = c :: r := by
  induction ws with
  | nil => rw [List.nil_append, List.dropWhile_cons, hc]; rfl
  | cons a ws ih =>
      rw [List.cons_append, List.dropWhile_cons, if_pos (hws a (by simp))]
      exact ih (fun x hx => hws x (by simp [hx]))

theorem dropWhile_length_ge (p : Char → Bool) (xs : List Char) (e : Char) (ys : List Char)
    (he : p e = false) : ys.length + 1 ≤ ((xs ++ e :: ys).dropWhile p).length := by
  induction xs with
  | nil =>
      rw [List.nil_append, List.dropWhile_cons, he]
      simp
  | cons x xs ih =>
      rw [List.cons_append, List.dropWhile_cons]
      rcases Bool.eq_false_or_eq_true (p x) with hx | hx
      · rw [if_pos hx]; exact ih
      · rw [if_neg (by rw [hx]; exact Bool.false_ne_true)]
        simp only [List.length_cons, List.length_append, List.length_cons]
        omega

theorem pyRstrip_length_ge (pre : List Char) (c : Char) (post : List Char)
    (hc : pyIsSpace c = false) :
    pre.length + 1 ≤ (pyRstrip (pre ++ c :: post)).length := by
  unfold pyRstrip
  rw [List.length_reverse]
  have hrev : (pre ++ c :: post).reverse = post.reverse ++ c :: pre.reverse := by
    rw [List.reverse_append, List.reverse_cons, List.append_assoc, List.singleton_append]
  rw [hrev]
  have h := dropWhile_length_ge pyIsSpace post.reverse c pre.reverse hc
  rwa [List.length_reverse] at h

/-- C3 (amended): a line whose lstripped content matches `#{1,6}` followed by a
whitespace character is tagged `text` by `identify_block_type` — the same tag
the classifier uses for plain text; the classifier has no distinct heading
tag. -/
theorem identify_heading_is_text (text : List Char)
    (h : matchHeading (pyLstrip text) = true) :
    identify_block_type text = BType.text := by
  have hA : (pyStrip (text.dropWhile pyIsSpace)).isEmpty = false := by
    cases hcl : text.dropWhile pyIsSpace with
    | nil =>
        unfold pyLstrip at h
        rw [hcl] at h
        simp [matchHeading] at h
    | cons c rest =>
        have hc : c = '#' := by
          by_contra hcne
          unfold pyLstrip at h
          rw [hcl] at h
          unfold matchHeading at h
          rw [List.takeWhile_cons] at h
          simp [hcne] at h
        subst hc
        have hs1 : pyIsSpace '#' = false := by decide
        have hl : pyLstrip ('#' :: rest) = '#' :: rest := by
          unfold pyLstrip
          rw [List.dropWhile_cons, hs1]
          rfl
        have hr := pyRstrip_length_ge [] '#' rest hs1
        unfold pyStrip
        rw [hl]
        simp only [List.nil_append, List.length_nil] at hr
        cases hER : pyRstrip ('#' :: rest) with
        | nil => rw [hER] at hr; simp at hr
        | cons a b => rfl
  unfold pyLstrip at h
  simp [identify_block_type, hA, h]

/-- C3 counterexample: the classifier assigns the heading line `"# Title"` the
very same tag it assigns the plain-text line `"Some text"` — the tag for
heading lines is not distinct from the plain-text tag. -/
theorem heading_tag_counterexample :
    identify_block_type "# Title".data = identify_block_type "Some text".data := by
  decide

/-- C3 (amended) witness at the concrete heading line `"# Title"`. -/
theorem identify_heading_is_text_witness :
    identify_block_type "# Title".data = BType.text :=
  identify_heading_is_text "# Title".data (by decide)

/-- C4: a `text`-classified line directly followed by a list-like line needs a
separator regardless of either indent, and repairing the two-line buffer
`"Some text" / "- item one"` inserts one blank line between them. -/
theorem conflict_text_then_list (t2 : BType) (i1 i2 : Nat)
    (h : isListType t2 = true) :
    check_conflict BType.text t2 i1 i2 = true ∧
    (auto_fix_spacing ["Some text".data, "- item one".data] 0).1
      = ["Some text".data, [], "- item one".data] := by
  refine ⟨?_, by decide⟩
  cases t2 <;> first
    | rfl
    | simp [isListType] at h

/-- C4 witness at `t2 = ul`, both indents `0`. -/
theorem conflict_text_then_list_witness :
    check_conflict BType.text BType.ul 0 0 = true ∧
    (auto_fix_spacing ["Some text".data, "- item one".data] 0).1
      = ["Some text".data, [], "- item one".data] :=
  conflict_text_then_list BType.ul 0 0 (by decide)

/-- C5: a list-like line directly followed by a `text`-classified line needs a
separator exactly when the current indent is at most the previous indent, and
repairing `"- item" / "  continued text"` inserts nothing. -/
theorem conflict_list_then_text (t1 : BType) (i1 i2 : Nat)
    (h : isListType t1 = true) :
    check_conflict t1 BType.text i1 i2 = decide (i2 ≤ i1) ∧
    (auto_fix_spacing ["- item".data, "  continued text".data] 0).1
      = ["- item".data, "  continued text".data] := by
  refine ⟨?_, by decide⟩
  cases t1 <;>
    (try simp [isListType] at h) <;>
    by_cases hle : i2 ≤ i1 <;>
    simp [check_conflict, isListType, hle]

/-- C5 witness at `t1 = ul`, `i1 = 0`, `i2 = 2`. -/
theorem conflict_list_then_text_witness :
    check_conflict BType.ul BType.text 0 2 = decide (2 ≤ 0) ∧
    (auto_fix_spacing ["- item".data, "  continued text".data] 0).1
      = ["- item".data, "  continued text".data] :=
  conflict_list_then_text BType.ul 0 2 (by decide)

example : keyPressEvent ["- [ ] buy milk".data] 0 14
    = some (["- [ ] buy milk".data, "- [ ] ".data], 1, 6) := by decide
example : keyPressEvent ["- [x] done".data] 0 10
    = some (["- [x] done".data, "- [ ] ".data], 1, 6) := by decide
example : keyPressEvent ["- ".data] 0 2 = some ([[], []], 1, 0) := by decide
example : keyPressEvent ["- [ ] ".data] 0 6 = some ([[], []], 1, 0) := by decide
example : keyPressEvent ["x".data, "- ".data] 1 2
    = some (["x".data, []], 1, 0) := by decide
example : keyPressEvent ["x".data, "3. ".data] 1 3
    = some (["x".data, []], 1, 0) := by decide
example : keyPressEvent ["3. third item".data] 0 13
    = some (["3. third item".data, "4. ".data], 1, 3) := by decide
example : keyPressEvent ["plain".data] 0 5 = none := by decide

theorem set_getD_self {α : Type} (ls : List α) (i : Nat) (d : α) (h : i < ls.length) :
    ls.set i (ls.getD i d) = ls := by
  induction ls generalizing i with
  | nil => simp at h
  | cons a ls ih =>
      cases i with
      | zero => rfl
      | succ n =>
          have hn : n < ls.length := by simpa using h
          show a :: ls.set n (ls.getD n d) = a :: ls
          rw [ih n hn]

/-- C6: a line-break on a task line with non-empty content after the marker,
caret at end of line, inserts a new line made of the same indent, the same
bullet character and the unchecked marker, caret just after the new marker —
regardless of the current checkbox state `x`; and concretely on
`"- [ ] buy milk"`. -/
theorem keyPress_task_continuation
    (lines : List (List Char)) (row : Nat) (ws : List Char) (m x s2 : Char)
    (rest : List Char)
    (hws : ∀ a ∈ ws, pyIsSpace a = true)
    (hm : m = '-' ∨ m = '*')
    (hx : x = 'x' ∨ x = 'X' ∨ x = ' ')
    (hs2 : pyIsSpace s2 = true)
    (htext : lines.getD row [] = ws ++ m :: ' ' :: '[' :: x :: ']' :: s2 :: rest)
    (hcontent : ∃ c ∈ s2 :: rest, pyIsSpace c = false) :
    keyPressEvent lines row (lines.getD row []).length
      = some (insertAt lines (row + 1) (ws ++ m :: ' ' :: '[' :: ' ' :: ']' :: ' ' :: []),
              row + 1, ws.length + 6) ∧
    keyPressEvent ["- [ ] buy milk".data] 0 14
      = some (["- [ ] buy milk".data, "- [ ] ".data], 1, 6) := by
  refine ⟨?_, by decide⟩
  have hmns : pyIsSpace m = false := by rcases hm with rfl | rfl <;> decide
  have hrow : row < lines.length := by
    by_contra hge
    push_neg at hge
    rw [List.getD_eq_default _ _ hge] at htext
    exact absurd htext (by simp)
  have hdrop : (lines.getD row []).dropWhile pyIsSpace
      = m :: ' ' :: '[' :: x :: ']' :: s2 :: rest := by
    rw [htext]; exact dropWhile_append_stop _ _ _ _ hws hmns
  have htake : (lines.getD row []).takeWhile pyIsSpace = ws := by
    rw [htext]; exact takeWhile_append_stop _ _ _ _ hws hmns
  obtain ⟨c, hcmem, hcns⟩ := hcontent
  obtain ⟨pre, post, hsplit⟩ := List.append_of_mem hcmem
  have hstrip : 6 ≤ (pyStrip (lines.getD row [])).length := by
    unfold pyStrip pyLstrip
    rw [hdrop, hsplit]
    have hassoc : m :: ' ' :: '[' :: x :: ']' :: (pre ++ c :: post)
        = (m :: ' ' :: '[' :: x :: ']' :: pre) ++ c :: post := by simp
    rw [hassoc]
    have h6 := pyRstrip_length_ge (m :: ' ' :: '[' :: x :: ']' :: pre) c post hcns
    simp only [List.length_cons] at h6
    omega
  have htm : taskMatch (lines.getD row []) = some (ws, m) := by
    have hcond : ((decide (m = '-') || decide (m = '*'))
        && (decide (x = 'x') || decide (x = 'X') || decide (x = ' '))
        && pyIsSpace s2) = true := by
      rcases hm with rfl | rfl <;> rcases hx with rfl | rfl | rfl <;> simp [hs2]
    unfold taskMatch
    rw [hdrop]
    show (if ((decide (m = '-') || decide (m = '*'))
            && (decide (x = 'x') || decide (x = 'X') || decide (x = ' '))
            && pyIsSpace s2) = true
          then some ((lines.getD row []).takeWhile pyIsSpace, m) else none) = some (ws, m)
    rw [if_pos hcond, htake]
  have hum : ulMatch (lines.getD row []) = some (ws, m) := by
    have hcond : ((decide (m = '-') || decide (m = '*') || decide (m = '+'))
        && pyIsSpace ' ') = true := by
      rcases hm with rfl | rfl <;> decide
    unfold ulMatch
    rw [hdrop]
    show (if ((decide (m = '-') || decide (m = '*') || decide (m = '+'))
            && pyIsSpace ' ') = true
          then some ((lines.getD row []).takeWhile pyIsSpace, m) else none) = some (ws, m)
    rw [if_pos hcond, htake]
  have holm : olMatch (lines.getD row []) = none := by
    have hdig : Char.isDigit m = false := by rcases hm with rfl | rfl <;> decide
    unfold olMatch
    rw [hdrop]
    simp only [List.takeWhile_cons, hdig, Bool.false_eq_true, if_false, List.isEmpty_nil,
      if_true]
  have hbt : bareTask (lines.getD row []) = false := by
    have hb5 : ((pyStrip (lines.getD row [])).length == 5) = false :=
      beq_eq_false_iff_ne.mpr (by omega)
    unfold bareTask
    rw [hb5, Bool.and_false]
  have hbu : bareUl (lines.getD row []) = false := by
    have hne : pyStrip (lines.getD row []) ≠ [m] := by
      intro hEq
      have := congrArg List.length hEq
      simp only [List.length_cons, List.length_nil] at this
      omega
    unfold bareUl
    rw [hum]
    exact beq_eq_false_iff_ne.mpr hne
  have hbo : bareOl (lines.getD row []) = false := by
    unfold bareOl
    rw [holm]
  show (if bareTask (lines.getD row []) || bareUl (lines.getD row [])
          || bareOl (lines.getD row []) then
          some (remove_current_line_marker lines row)
        else _) = _
  rw [hbt, hbu, hbo]
  simp only [Bool.or_self, Bool.or_false, Bool.false_eq_true, if_false]
  rw [htm]
  simp only [insert_new_line_with_marker, List.take_length, List.drop_length,
    List.append_nil, set_getD_self lines row [] hrow]
  simp [List.length_append]

/-- C6 witness at the checked task line `"- [x] milk"`, caret at end of line. -/
theorem keyPress_task_continuation_witness :
    keyPressEvent ["- [x] milk".data] 0 ("- [x] milk".data).length
      = some (insertAt ["- [x] milk".data] 1
              ('-' :: ' ' :: '[' :: ' ' :: ']' :: ' ' :: []), 1, 6) ∧
    keyPressEvent ["- [ ] buy milk".data] 0 14
      = some (["- [ ] buy milk".data, "- [ ] ".data], 1, 6) :=
  keyPress_task_continuation ["- [x] milk".data] 0 [] '-' 'x' ' ' "milk".data
    (by intro a ha; simp at ha) (Or.inl rfl) (Or.inl rfl) (by decide) (by decide)
    ⟨'m', by decide, by decide⟩

/-- C7 counterexample: on the single-line buffer whose only line is the bare
marker `"- "`, the line-break leaves two empty lines with the caret at the
start of the second — not a single empty line.  (`BlockUnderCursor` on the
first block selects no preceding separator, so the unconditional
`insertBlock` adds one.) -/
theorem bare_marker_first_row_counterexample :
    keyPressEvent ["- ".data] 0 2 = some ([[], []], 1, 0) ∧
    keyPressEvent ["- ".data] 0 2 ≠ some ([[]], 0, 0) := by decide

/-- C7 (amended): a line-break on a bare list-marker line (task, unordered,
or ordered bare test of the source) terminates the list — the marker is
deleted and no new marker is inserted.  On any line but the first, the line
is replaced by a single empty line with the caret at its start; on the first
line of the buffer, the emptied line is additionally split, leaving two empty
lines with the caret at the start of the second.  Concretely, the bare line
`"- "` on the first row yields two empty lines. -/
theorem keyPress_bare_marker_terminates
    (lines : List (List Char)) (row col : Nat)
    (h : (bareTask (lines.getD row []) || bareUl (lines.getD row [])
          || bareOl (lines.getD row [])) = true) :
    (row = 0 → keyPressEvent lines row col = some ([] :: lines.set 0 [], 1, 0)) ∧
    (row ≠ 0 → keyPressEvent lines row col = some (lines.set row [], row, 0)) ∧
    keyPressEvent ["- ".data] 0 2 = some ([[], []], 1, 0) := by
  have hterm : keyPressEvent lines row col = some (remove_current_line_marker lines row) := by
    show (if bareTask (lines.getD row []) || bareUl (lines.getD row [])
            || bareOl (lines.getD row []) then
            some (remove_current_line_marker lines row)
          else _) = _
    rw [if_pos h]
  refine ⟨?_, ?_, by decide⟩
  · intro h0
    rw [hterm]
    unfold remove_current_line_marker
    rw [if_pos h0]
  · intro h0
    rw [hterm]
    unfold remove_current_line_marker
    rw [if_neg h0]

/-- C7 (amended) witness: the bare line `"- "` as a non-first line (row 1)
becomes a single empty line with the caret at its start, and as the first
line (row 0) becomes two empty lines with the caret on the second. -/
theorem keyPress_bare_marker_terminates_witness :
    keyPressEvent ["x".data, "- ".data] 1 2 = some (["x".data, []], 1, 0) ∧
    keyPressEvent ["- ".data] 0 2 = some ([[], []], 1, 0) :=
  ⟨(keyPress_bare_marker_terminates ["x".data, "- ".data] 1 2 (by decide)).2.1
      (by decide),
   (keyPress_bare_marker_terminates ["- ".data] 0 2 (by decide)).1 rfl⟩

/-- The checkbox-content class `[ xX]` of the task-toggle regex. -/
example : check_task_toggle ["- [ ] done?".data] 0 3 = (["- [x] done?".data], 5) := by
  decide
example : check_task_toggle ["- [x] done?".data] 0 3 = (["- [ ] done?".data], 5) := by
  decide
example : check_task_toggle ["- [X] done?".data] 0 3 = (["- [ ] done?".data], 5) := by
  decide
example : check_task_toggle ["plain".data] 0 2 = (["plain".data], 2) := by decide
example : check_task_toggle ["- [ ] a".data] 0 2 = (["- [ ] a".data], 2) := by decide

theorem take_append_len {α : Type} (l1 l2 : List α) (n : Nat) :
    (l1 ++ l2).take (l1.length + n) = l1 ++ l2.take n := by
  induction l1 with
  | nil => simp
  | cons a l1 ih =>
      have hlen : (a :: l1).length + n = (l1.length + n) + 1 := by
        simp only [List.length_cons]; omega
      rw [hlen, List.cons_append, List.take_succ_cons, ih, List.cons_append]

theorem drop_append_len {α : Type} (l1 l2 : List α) (n : Nat) :
    (l1 ++ l2).drop (l1.length + n) = l2.drop n := by
  induction l1 with
  | nil => simp
  | cons a l1 ih =>
      have hlen : (a :: l1).length + n = (l1.length + n) + 1 := by
        simp only [List.length_cons]; omega
      rw [hlen, List.cons_append, List.drop_succ_cons, ih]

theorem getD_set_self {α : Type} (ls : List α) (i : Nat) (x d : α) (h : i < ls.length) :
    (ls.set i x).getD i d = x := by
  induction ls generalizing i with
  | nil => simp at h
  | cons a ls ih =>
      cases i with
      | zero => rfl
      | succ n =>
          have hn : n < ls.length := by simpa using h
          show (ls.set n x).getD n d = x
          exact ih n hn

theorem task_toggle_once
    (lines : List (List Char)) (row col : Nat) (ws1 ws2 rest3 : List Char) (b c : Char)
    (hws1 : ∀ a ∈ ws1, pyIsSpace a = true)
    (hws2 : ∀ a ∈ ws2, pyIsSpace a = true)
    (hb : b = '-' ∨ b = '*')
    (hc : c = ' ' ∨ c = 'x' ∨ c = 'X')
    (htext : lines.getD row [] = ws1 ++ b :: (ws2 ++ '[' :: c :: ']' :: rest3))
    (hcol1 : ws1.length + 1 + ws2.length < col)
    (hcol2 : col ≤ ws1.length + 1 + ws2.length + 2) :
    check_task_toggle lines row col
      = (lines.set row
          (ws1 ++ b :: (ws2 ++ '[' :: (if c = ' ' then 'x' else ' ') :: ']' :: rest3)),
         ws1.length + 1 + ws2.length + 3) := by
  have hbns : pyIsSpace b = false := by rcases hb with rfl | rfl <;> decide
  have hlb : pyIsSpace '[' = false := by decide
  have hcheckc : isCheckChar c = true := by rcases hc with rfl | rfl | rfl <;> decide
  have hcheckrb : isCheckChar ']' = false := by decide
  have hrow : row < lines.length := by
    by_contra hge
    push_neg at hge
    rw [List.getD_eq_default _ _ hge] at htext
    exact absurd htext (by simp)
  have hdrop1 : (lines.getD row []).dropWhile pyIsSpace
      = b :: (ws2 ++ '[' :: c :: ']' :: rest3) := by
    rw [htext]; exact dropWhile_append_stop _ _ _ _ hws1 hbns
  have htake1 : (lines.getD row []).takeWhile pyIsSpace = ws1 := by
    rw [htext]; exact takeWhile_append_stop _ _ _ _ hws1 hbns
  have hdrop2 : (ws2 ++ '[' :: c :: ']' :: rest3).dropWhile pyIsSpace
      = '[' :: (c :: ']' :: rest3) := dropWhile_append_stop _ _ _ _ hws2 hlb
  have htake2 : (ws2 ++ '[' :: c :: ']' :: rest3).takeWhile pyIsSpace = ws2 :=
    takeWhile_append_stop _ _ _ _ hws2 hlb
  have hcontent : (c :: ']' :: rest3).takeWhile isCheckChar = [c] := by
    rw [List.takeWhile_cons, if_pos hcheckc, List.takeWhile_cons,
      if_neg (by rw [hcheckrb]; exact Bool.false_ne_true)]
  have hdropc : (c :: ']' :: rest3).dropWhile isCheckChar = ']' :: rest3 := by
    rw [List.dropWhile_cons, if_pos hcheckc, List.dropWhile_cons,
      if_neg (by rw [hcheckrb]; exact Bool.false_ne_true)]
  have hbcond : (decide (b = '-') || decide (b = '*')) = true := by
    rcases hb with rfl | rfl <;> decide
  have htm : taskToggleMatch (lines.getD row [])
      = some (ws1.length + 1 + ws2.length, [c],
              ws1.length + 1 + ws2.length + 1 + 1 + 1) := by
    unfold taskToggleMatch
    rw [hdrop1]
    simp only [hbcond, if_true, hdrop2, hdropc, htake1, htake2, hcontent,
      List.length_cons, List.length_nil]
  have htakebs : (lines.getD row []).take (ws1.length + 1 + ws2.length)
      = ws1 ++ b :: ws2 := by
    rw [htext]
    have h1 : ws1.length + 1 + ws2.length = ws1.length + (1 + ws2.length) := by omega
    rw [h1, take_append_len]
    have h2 : 1 + ws2.length = ws2.length + 1 := by omega
    rw [h2, List.take_succ_cons]
    have h3 : ws2.length = ws2.length + 0 := by omega
    rw [h3, take_append_len]
    simp
  have hdropm : (lines.getD row []).drop (ws1.length + 1 + ws2.length + 1 + 1 + 1)
      = rest3 := by
    rw [htext]
    have hre : ws1 ++ b :: (ws2 ++ '[' :: c :: ']' :: rest3)
        = (ws1 ++ b :: (ws2 ++ '[' :: c :: ']' :: [])) ++ rest3 := by simp
    rw [hre]
    have hlen : (ws1 ++ b :: (ws2 ++ '[' :: c :: ']' :: [])).length
        = ws1.length + 1 + ws2.length + 1 + 1 + 1 := by
      simp [List.length_append]; omega
    rw [show ws1.length + 1 + ws2.length + 1 + 1 + 1
          = (ws1 ++ b :: (ws2 ++ '[' :: c :: ']' :: [])).length + 0 from by rw [hlen]]
    rw [drop_append_len]
    rfl
  show (match taskToggleMatch (lines.getD row []) with
        | none => (lines, col)
        | some (bs, content, mEnd) =>
            if bs < col ∧ col ≤ mEnd - 1 then
              let newSpan : List Char :=
                if (pyStrip content).isEmpty then '[' :: 'x' :: ']' :: []
                else '[' :: ' ' :: ']' :: []
              let newText := (lines.getD row []).take bs ++ newSpan
                ++ (lines.getD row []).drop mEnd
              (lines.set row newText,
               if mEnd ≤ newText.length then mEnd else newText.length)
            else (lines, col)) = _
  rw [htm]
  show (if ws1.length + 1 + ws2.length < col
          ∧ col ≤ ws1.length + 1 + ws2.length + 1 + 1 + 1 - 1 then _ else _) = _
  rw [if_pos ⟨hcol1, by omega⟩]
  show ((lines.set row ((lines.getD row []).take (ws1.length + 1 + ws2.length)
          ++ (if (pyStrip [c]).isEmpty then '[' :: 'x' :: ']' :: []
              else '[' :: ' ' :: ']' :: [])
          ++ (lines.getD row []).drop (ws1.length + 1 + ws2.length + 1 + 1 + 1))),
        _) = _
  rw [htakebs, hdropm]
  have hspan : (if (pyStrip [c]).isEmpty then '[' :: 'x' :: ']' :: []
      else '[' :: ' ' :: ']' :: []) = '[' :: (if c = ' ' then 'x' else ' ') :: ']' :: [] := by
    rcases hc with rfl | rfl | rfl <;> decide
  rw [hspan]
  have hshape : (ws1 ++ b :: ws2) ++ '[' :: (if c = ' ' then 'x' else ' ') :: ']' :: []
        ++ rest3
      = ws1 ++ b :: (ws2 ++ '[' :: (if c = ' ' then 'x' else ' ') :: ']' :: rest3) := by
    simp
  rw [hshape]
  have hclamp : ws1.length + 1 + ws2.length + 1 + 1 + 1
      ≤ (ws1 ++ b :: (ws2 ++ '[' :: (if c = ' ' then 'x' else ' ') :: ']' :: rest3)).length := by
    simp [List.length_append]
    omega
  rw [if_pos hclamp]

/-- C8 counterexample: on the checked task line `"- [X] done?"` (uppercase
check state), toggling with the caret inside the brackets and toggling again
yields `"- [x] done?"`, not the original line — the double toggle does not
restore the original bracket content `X`. -/
theorem task_toggle_counterexample :
    (check_task_toggle ["- [X] done?".data] 0 3).1 = ["- [ ] done?".data] ∧
    (check_task_toggle ["- [ ] done?".data] 0 3).1 = ["- [x] done?".data] ∧
    "- [x] done?".data ≠ "- [X] done?".data := by decide

/-- C8 (amended): for a task line whose bracket content is the canonical
single character `' '` (unchecked) or `'x'` (checked), a caret strictly after
the opening bracket and at or before the closing bracket flips the content
(blank to `x`, `x` to blank), moves the caret just past the closing bracket,
and toggling a second time at the same caret restores the original buffer. -/
theorem task_toggle_canonical
    (lines : List (List Char)) (row col : Nat) (ws1 ws2 rest3 : List Char) (b c : Char)
    (hws1 : ∀ a ∈ ws1, pyIsSpace a = true)
    (hws2 : ∀ a ∈ ws2, pyIsSpace a = true)
    (hb : b = '-' ∨ b = '*')
    (hc : c = ' ' ∨ c = 'x')
    (htext : lines.getD row [] = ws1 ++ b :: (ws2 ++ '[' :: c :: ']' :: rest3))
    (hcol1 : ws1.length + 1 + ws2.length < col)
    (hcol2 : col ≤ ws1.length + 1 + ws2.length + 2) :
    check_task_toggle lines row col
      = (lines.set row
          (ws1 ++ b :: (ws2 ++ '[' :: (if c = ' ' then 'x' else ' ') :: ']' :: rest3)),
         ws1.length + 1 + ws2.length + 3) ∧
    (check_task_toggle (check_task_toggle lines row col).1 row col).1 = lines := by
  have hc3 : c = ' ' ∨ c = 'x' ∨ c = 'X' := by tauto
  have h1 := task_toggle_once lines row col ws1 ws2 rest3 b c hws1 hws2 hb hc3 htext
    hcol1 hcol2
  refine ⟨h1, ?_⟩
  have hrow : row < lines.length := by
    by_contra hge
    push_neg at hge
    rw [List.getD_eq_default _ _ hge] at htext
    exact absurd htext (by simp)
  have hlines1 : (check_task_toggle lines row col).1
      = lines.set row (ws1 ++ b :: (ws2 ++ '[' :: (if c = ' ' then 'x' else ' ')
          :: ']' :: rest3)) := by
    rw [h1]
  have htext1 : ((check_task_toggle lines row col).1).getD row []
      = ws1 ++ b :: (ws2 ++ '[' :: (if c = ' ' then 'x' else ' ') :: ']' :: rest3) := by
    rw [hlines1]
    exact getD_set_self _ _ _ _ hrow
  have hc2mem : (if c = ' ' then 'x' else ' ') = ' '
      ∨ (if c = ' ' then 'x' else ' ') = 'x'
      ∨ (if c = ' ' then 'x' else ' ') = 'X' := by
    rcases hc with rfl | rfl <;> simp
  have h2 := task_toggle_once ((check_task_toggle lines row col).1) row col ws1 ws2 rest3
    b (if c = ' ' then 'x' else ' ') hws1 hws2 hb hc2mem htext1 hcol1 hcol2
  rw [h2, hlines1, List.set_set]
  have hflip : (if (if c = ' ' then 'x' else ' ') = ' ' then 'x' else ' ') = c := by
    rcases hc with rfl | rfl <;> simp
  rw [hflip, ← htext]
  exact set_getD_self lines row [] hrow

/-- C8 (amended) witness: the unchecked task line `"- [ ] done?"` with the
caret at offset 3 inside the brackets toggles to `"- [x] done?"` with the
caret just past the bracket, and toggling again restores the line. -/
theorem task_toggle_canonical_witness :
    check_task_toggle ["- [ ] done?".data] 0 3 = (["- [x] done?".data], 5) ∧
    (check_task_toggle (check_task_toggle ["- [ ] done?".data] 0 3).1 0 3).1
      = ["- [ ] done?".data] :=
  task_toggle_canonical ["- [ ] done?".data] 0 3 [] [' '] " done?".data '-' ' '
    (by intro a ha; simp at ha) (by decide) (Or.inl rfl) (Or.inl rfl) (by decide)
    (by decide) (by decide)

theorem scanTrace_getD (ls : List (List Char)) :
    ∀ (s : ScanState) (i : Nat), i < ls.length →
      (scanTrace s ls).getD i .skipped
        = (stepEvent (stateAt s (ls.take i)) (ls.getD i [])).1 := by
  induction ls with
  | nil => intro s i h; simp at h
  | cons l ls ih =>
      intro s i h
      cases i with
      | zero => rfl
      | succ n =>
          have hn : n < ls.length := by simpa using h
          show (scanTrace (stepEvent s l).2 ls).getD n .skipped = _
          rw [ih (stepEvent s l).2 n hn]
          rfl

theorem stepEvent_inCode (s : ScanState) (l : List Char) :
    (stepEvent s l).2.inCode = if isFence l then !s.inCode else s.inCode := by
  rcases Bool.eq_false_or_eq_true (isFence l) with hf | hf
  · rw [if_pos hf]
    unfold stepEvent
    rw [if_pos hf]
  · rw [if_neg (by rw [hf]; exact Bool.false_ne_true)]
    unfold stepEvent
    rw [if_neg (by rw [hf]; exact Bool.false_ne_true)]
    rcases Bool.eq_false_or_eq_true s.inCode with hic | hic
    · rw [if_pos hic]
    · rw [if_neg (by rw [hic]; exact Bool.false_ne_true)]
      show (if identify_block_type l = BType.empty
            then ({ prevType := BType.empty, prevIndent := 0,
                    inCode := s.inCode } : ScanState)
            else { prevType := identify_block_type l, prevIndent := get_indent l,
                   inCode := s.inCode }).inCode = s.inCode
      split <;> rfl

theorem stateAt_inCode (ls : List (List Char)) :
    ∀ s : ScanState, (stateAt s ls).inCode
      = (s.inCode ^^ decide ((ls.countP isFence) % 2 = 1)) := by
  induction ls with
  | nil => intro s; simp [stateAt]
  | cons l ls ih =>
      intro s
      show (stateAt (stepEvent s l).2 ls).inCode = _
      rw [ih, stepEvent_inCode]
      rcases Bool.eq_false_or_eq_true (isFence l) with hf | hf
      · rw [if_pos hf, List.countP_cons, hf]
        rcases Nat.mod_two_eq_zero_or_one (ls.countP isFence) with hm | hm <;>
          rcases Bool.eq_false_or_eq_true s.inCode with hs | hs <;>
            simp [hs, Nat.add_mod, hm]
      · rw [if_neg (by rw [hf]; exact Bool.false_ne_true), List.countP_cons, hf]
        simp

theorem scanPositions_mem (ls : List (List Char)) :
    ∀ (s : ScanState) (base p : Nat), p ∈ scanPositions s base ls →
      ∃ i, i < ls.length ∧ p = base + offsetOf ls i ∧
        eventFlag ((scanTrace s ls).getD i .skipped) = true := by
  induction ls with
  | nil => intro s base p hp; simp [scanPositions] at hp
  | cons l ls ih =>
      intro s base p hp
      rw [scanPositions_cons] at hp
      rcases List.mem_append.mp hp with hp | hp
      · have hflag : eventFlag (stepEvent s l).1 = true := by
          by_contra hfl
          rw [if_neg hfl] at hp
          simp at hp
        rw [if_pos hflag] at hp
        simp only [List.mem_singleton] at hp
        refine ⟨0, by simp, ?_, hflag⟩
        rw [hp]
        simp [offsetOf]
      · obtain ⟨i, hi, hpeq, hflag⟩ := ih (stepEvent s l).2 (base + (l.length + 1)) p hp
        refine ⟨i + 1, by simpa using hi, ?_, hflag⟩
        have hoff : offsetOf (l :: ls) (i + 1) = (l.length + 1) + offsetOf ls i := by
          simp [offsetOf, List.take_succ_cons]
        rw [hoff]
        omega

theorem offsetOf_succ (ls : List (List Char)) :
    ∀ i, i < ls.length →
      offsetOf ls (i + 1) = offsetOf ls i + ((ls.getD i []).length + 1) := by
  induction ls with
  | nil => intro i h; simp at h
  | cons l ls ih =>
      intro i h
      cases i with
      | zero => simp [offsetOf, List.take_succ_cons]
      | succ n =>
          have hn : n < ls.length := by simpa using h
          have h1 : offsetOf (l :: ls) (n + 1 + 1)
              = (l.length + 1) + offsetOf ls (n + 1) := by
            simp [offsetOf, List.take_succ_cons]
          have h2 : offsetOf (l :: ls) (n + 1) = (l.length + 1) + offsetOf ls n := by
            simp [offsetOf, List.take_succ_cons]
          rw [h1, h2, ih n hn]
          show _ = _ + (((l :: ls).getD (n + 1) []).length + 1)
          have h3 : (l :: ls).getD (n + 1) [] = ls.getD n [] := rfl
          rw [h3]
          omega

theorem offsetOf_strictMono (ls : List (List Char)) (i j : Nat)
    (hij : i < j) (hj : j ≤ ls.length) : offsetOf ls i < offsetOf ls j := by
  induction j with
  | zero => omega
  | succ n ihj =>
      have hn : n < ls.length := by omega
      rw [offsetOf_succ ls n hn]
      rcases Nat.lt_or_ge i n with h | h
      · have := ihj h (by omega)
        omega
      · have hieq : i = n := by omega
        subst hieq
        omega

/-- C9: a non-fence line lying after an odd number of fence lines (and before
a closing fence) is skipped by the scan — its trace event is `skipped`, so the
classifier is never invoked on it — and its line-start offset is never
recorded as an insertion position; moreover the fence state when the scan
reaches it is exactly the parity bit of the fence lines before it. -/
theorem fence_opacity
    (lines : List (List Char)) (i : Nat)
    (hi : i < lines.length)
    (hnf : isFence (lines.getD i []) = false)
    (hodd : ((lines.take i).countP isFence) % 2 = 1)
    (hclose : ∃ j, i < j ∧ j < lines.length ∧ isFence (lines.getD j []) = true) :
    (scanTrace initState lines).getD i .skipped = LineEvent.skipped ∧
    offsetOf lines i ∉ autoFixPositions lines ∧
    (stateAt initState (lines.take i)).inCode = true := by
  have hstate : (stateAt initState (lines.take i)).inCode = true := by
    rw [stateAt_inCode]
    simp [initState, hodd]
  have htr := scanTrace_getD lines initState i hi
  have hev : (stepEvent (stateAt initState (lines.take i)) (lines.getD i [])).1
      = .skipped := by
    unfold stepEvent
    rw [if_neg (by rw [hnf]; exact Bool.false_ne_true), if_pos hstate]
  refine ⟨by rw [htr, hev], ?_, hstate⟩
  intro hmem
  obtain ⟨j, hj, hpeq, hflag⟩ := scanPositions_mem lines initState 0 _ hmem
  have hij : i = j := by
    by_contra hne
    rcases Nat.lt_or_ge i j with h | h
    · have := offsetOf_strictMono lines i j h (by omega)
      omega
    · have h2 : j < i := by omega
      have := offsetOf_strictMono lines j i h2 (by omega)
      omega
  subst hij
  rw [htr, hev] at hflag
  simp [eventFlag] at hflag

/-- C9 witness: the middle line of a three-line fenced block. -/
theorem fence_opacity_witness :
    (scanTrace initState ["```".data, "- a".data, "```".data]).getD 1 .skipped
      = LineEvent.skipped ∧
    offsetOf ["```".data, "- a".data, "```".data] 1
      ∉ autoFixPositions ["```".data, "- a".data, "```".data] ∧
    (stateAt initState (["```".data, "- a".data, "```".data].take 1)).inCode = true :=
  fence_opacity ["```".data, "- a".data, "```".data] 1 (by decide) (by decide)
    (by decide) ⟨2, by decide, by decide, by decide⟩

theorem sublist_applyFlags (ls : List (List Char)) :
    ∀ fs : List Bool, ls.Sublist (applyFlags fs ls) := by
  induction ls with
  | nil =>
      intro fs
      cases fs <;> exact List.Sublist.refl _
  | cons l ls ih =>
      intro fs
      cases fs with
      | nil => exact List.Sublist.refl _
      | cons f fs =>
          cases f
          · show (l :: ls).Sublist (l :: applyFlags fs ls)
            exact (ih fs).cons₂ l
          · show (l :: ls).Sublist ([] :: l :: applyFlags fs ls)
            exact ((ih fs).cons₂ l).cons []

theorem mem_applyFlags (ls : List (List Char)) :
    ∀ (fs : List Bool) (x : List Char), x ∈ applyFlags fs ls → x ∈ ls ∨ x = [] := by
  induction ls with
  | nil =>
      intro fs x hx
      cases fs <;> simp [applyFlags] at hx
  | cons l ls ih =>
      intro fs x hx
      cases fs with
      | nil => exact Or.inl hx
      | cons f fs =>
          cases f
          · have hx2 : x ∈ l :: applyFlags fs ls := hx
            rcases List.mem_cons.mp hx2 with rfl | hh
            · exact Or.inl (List.mem_cons_self _ _)
            · rcases ih fs x hh with h1 | h1
              · exact Or.inl (List.mem_cons_of_mem _ h1)
              · exact Or.inr h1
          · have hx2 : x ∈ [] :: l :: applyFlags fs ls := hx
            rcases List.mem_cons.mp hx2 with rfl | hh
            · exact Or.inr rfl
            · rcases List.mem_cons.mp hh with rfl | hh2
              · exact Or.inl (List.mem_cons_self _ _)
              · rcases ih fs x hh2 with h1 | h1
                · exact Or.inl (List.mem_cons_of_mem _ h1)
                · exact Or.inr h1

theorem applyFlags_ne_nil (l : List Char) (ls : List (List Char)) (fs : List Bool) :
    applyFlags fs (l :: ls) ≠ [] := by
  cases fs with
  | nil => simp [applyFlags]
  | cons f fs =>
      cases f
      · show l :: applyFlags fs ls ≠ []
        simp
      · show [] :: l :: applyFlags fs ls ≠ []
        simp

theorem charJoin_cons (l : List Char) (A : List (List Char)) (hA : A ≠ []) :
    charJoin (l :: A) = l ++ '\n' :: charJoin A := by
  cases A with
  | nil => exact absurd rfl hA
  | cons a A2 => rfl

theorem charJoin_sublist (ls : List (List Char)) :
    ∀ fs : List Bool, (charJoin ls).Sublist (charJoin (applyFlags fs ls)) := by
  induction ls with
  | nil =>
      intro fs
      cases fs <;> exact List.Sublist.refl _
  | cons l ls ih =>
      intro fs
      cases fs with
      | nil => exact List.Sublist.refl _
      | cons f fs =>
          have hcore : (charJoin (l :: ls)).Sublist (charJoin (l :: applyFlags fs ls)) := by
            cases ls with
            | nil => cases fs <;> exact List.Sublist.refl _
            | cons l2 ls2 =>
                rw [charJoin_cons l (l2 :: ls2) (by simp),
                    charJoin_cons l (applyFlags fs (l2 :: ls2))
                      (applyFlags_ne_nil l2 ls2 fs)]
                exact List.Sublist.append_left ((ih fs).cons₂ '\n') l
          cases f
          · exact hcore
          · show (charJoin (l :: ls)).Sublist (charJoin ([] :: l :: applyFlags fs ls))
            rw [charJoin_cons [] (l :: applyFlags fs ls) (by simp), List.nil_append]
            exact hcore.cons '\n'

/-- C10: the repair pass only inserts: every recorded position is the start
offset of a line other than the first (the scan starts with the previous
classification `empty`, so the first line can never conflict), the original
lines are a sublist of the repaired lines, every repaired line is an original
line or an inserted empty one, and the original buffer text is a subsequence
of the repaired buffer text. -/
theorem auto_fix_insertion_only (lines : List (List Char)) (caret : Nat) :
    (∀ p ∈ autoFixPositions lines, ∃ i, i < lines.length ∧ 0 < i ∧ p = offsetOf lines i) ∧
    lines.Sublist (auto_fix_spacing lines caret).1 ∧
    (∀ x ∈ (auto_fix_spacing lines caret).1, x ∈ lines ∨ x = []) ∧
    (charJoin lines).Sublist (charJoin (auto_fix_spacing lines caret).1) := by
  have hfst := auto_fix_fst lines caret
  refine ⟨?_, ?_, ?_, ?_⟩
  · intro p hp
    obtain ⟨i, hi, hpeq, hflag⟩ := scanPositions_mem lines initState 0 p hp
    refine ⟨i, hi, ?_, by omega⟩
    by_contra h0
    push_neg at h0
    have hizero : i = 0 := by omega
    subst hizero
    cases lines with
    | nil => simp at hi
    | cons l ls =>
        have hflag0 : eventFlag (stepEvent initState l).1 = true := hflag
        obtain ⟨hfen, _⟩ := eventFlag_true_facts _ _ hflag0
        have hstep : (stepEvent initState l).1
            = .classified (identify_block_type l)
                (check_conflict .empty (identify_block_type l) 0 (get_indent l)) := by
          unfold stepEvent
          rw [if_neg (by rw [hfen]; exact Bool.false_ne_true)]
          rfl
        rw [hstep] at hflag0
        rw [show eventFlag (.classified (identify_block_type l)
              (check_conflict .empty (identify_block_type l) 0 (get_indent l)))
            = check_conflict .empty (identify_block_type l) 0 (get_indent l) from rfl,
          check_conflict_empty_left] at hflag0
        exact Bool.false_ne_true hflag0
  · rw [hfst]
    exact sublist_applyFlags lines _
  · rw [hfst]
    exact fun x hx => mem_applyFlags lines _ x hx
  · rw [hfst]
    exact charJoin_sublist lines _

/-- C10 witness: in the two-line buffer `"a" / "- b"` the single recorded
position `2` is the start offset of line `1`, not of the first line. -/
theorem auto_fix_insertion_only_witness :
    ∃ i, i < (["a".data, "- b".data] : List (List Char)).length ∧ 0 < i ∧
      2 = offsetOf ["a".data, "- b".data] i :=
  (auto_fix_insertion_only ["a".data, "- b".data] 0).1 2 (by decide)

example : identify_block_type "# Title".data = .text := by decide
example : identify_block_type "- [x] do".data = .task := by decide
example : identify_block_type "  - item".data = .ul := by decide
example : identify_block_type "12. x".data = .ol := by decide
example : identify_block_type "---".data = .hr := by decide
example : identify_block_type "| a |".data = .table := by decide
example : identify_block_type "   ".data = .empty := by decide
example : identify_block_type "hello".data = .text := by decide
example : isFence "  ``` python".data = true := by decide
example : isFence "``".data = false := by decide
example : get_indent "   a".data = 3 := by decide
example : check_conflict .text .ul 0 4 = true := by decide
example : check_conflict .ul .text 0 2 = false := by decide
example : check_conflict .ul .text 2 2 = true := by decide
example :
    auto_fix_spacing ["Some text".data, "- item one".data] 0
      = (["Some text".data, [], "- item one".data], 0) := by decide
example :
    auto_fix_spacing ["- item".data, "  continued text".data] 3
      = (["- item".data, "  continued text".data], 3) := by decide
example : autoFixPositions ["Some text".data, [], "- item one".data] = [] := by decide
example : auto_fix_spacing ["Some text".data, "- item one".data] 12
      = (["Some text".data, [], "- item one".data], 13) := by decide
example : autoFixPositions ["```".data, "x".data, "- a".data, "```".data] = [] := by
  decide
